import Mathlib

/-!
Shallow embedding of the `tracing-service` dispatch pipeline.

Source files embedded:
- `src/response_stream.rs`: the `Inner` state machine and
  `ResponseStream::poll_next` (a `futures_core::Stream` implementation that
  pulls requests from an mpsc receiver, routes each through a
  `tower::Service`, and yields the service outcomes in order).
- `src/lib.rs`: the `ServiceLayer` constructors (`new`, `new_with_buffer`,
  `new_unbounded`), the sealed `SyncSender` impls, and `Layer::on_event`.

Modelling decisions:
- `Poll` mirrors `std::task::Poll`.  `ready!(e)` is modelled by matching on
  the `Poll` and returning `Poll.Pending` early.
- The mpsc receiver is modelled by a list of the items it will yield before
  all senders are dropped (`items`); `poll_recv` consumes a readiness bit
  from an oracle stream, so an execution covers every possible interleaving
  of "not yet available" answers.  When the list is exhausted the receiver
  reports `none` (channel closed), as a tokio receiver does once every
  sender is gone and the queue is drained.
- The `tower::Service` is modelled by an oracle for `poll_ready` answers
  (Pending, Ready ok, or Ready err) and a pure function `out` giving each
  request's call outcome.  `Svc::Future` is represented by the request it
  was created from; polling it consumes a completion bit from a third
  oracle.
- Ghost fields (`accepted`, `outputs`, `callsStarted`, `callsFinished`,
  `ub`) record the observable history: which requests were pulled from the
  source, which results were yielded, how many `Service::call`s were made
  and resolved, and whether the `unreachable_unchecked` branch was hit.
  They are write-only instrumentation and never influence control flow.
-/

namespace TracingService

/-- Mirror of `std::task::Poll`. -/
inductive Poll (α : Type u) where
  | Pending : Poll α
  | Ready : α → Poll α
deriving Repr, DecidableEq

/-- Mirror of the `Inner` state enum of `src/response_stream.rs`
(`WaitingStream | WaitingService { request } | Existing { future } | Closed`).
The in-flight `Svc::Future` of `Existing` is represented by the request the
future was created from; its outcome is given by the global outcome
function and its completion timing by the future oracle. -/
inductive Inner (Req : Type u) where
  | WaitingStream : Inner Req
  | WaitingService : Req → Inner Req
  | Existing : Req → Inner Req
  | Closed : Inner Req
deriving Repr, DecidableEq

/-- The readiness oracles: one answer stream per external resource,
indexed by how many times that resource has been polled so far.  Varying
the oracles produces every possible interleaving of source readiness,
worker readiness and operation completion. -/
structure Oracles (E : Type u) where
  recv : Nat → Bool
  ready : Nat → Poll (Except E Unit)
  fut : Nat → Bool

/-- State of one `ResponseStream` pipeline instance, plus ghost history.
`items` is what the receiver will still yield; `inner` is the `Inner`
state; the `*Count` fields index the oracles; the remaining fields are
ghost instrumentation. -/
structure ResponseStream (Req R E : Type u) where
  items : List Req
  inner : Inner Req
  recvCount : Nat
  readyCount : Nat
  futCount : Nat
  accepted : List Req
  outputs : List (Except E R)
  callsStarted : Nat
  callsFinished : Nat
  ub : Bool
deriving Repr

namespace ResponseStream

variable {Req R E : Type}

/-- `this.inner.set(v)`: overwrite the inner state. -/
def setInner (m : ResponseStream Req R E) (i : Inner Req) : ResponseStream Req R E :=
  { m with inner := i }

/-- `this.inner.as_mut().project_replace(v)`: returns the old inner state
and overwrites it with `v`. -/
def projectReplace (m : ResponseStream Req R E) (i : Inner Req) :
    Inner Req × ResponseStream Req R E :=
  (m.inner, { m with inner := i })

/-- Ghost: record a yielded result. -/
def pushOutput (m : ResponseStream Req R E) (o : Except E R) : ResponseStream Req R E :=
  { m with outputs := m.outputs ++ [o] }

/-- Ghost: record that `Service::call` was invoked. -/
def startCall (m : ResponseStream Req R E) : ResponseStream Req R E :=
  { m with callsStarted := m.callsStarted + 1 }

/-- Ghost: record that an in-flight `Svc::Future` resolved. -/
def finishCall (m : ResponseStream Req R E) : ResponseStream Req R E :=
  { m with callsFinished := m.callsFinished + 1 }

/-- `this.receiver.poll_recv(cx)`: consume one receiver-readiness bit.
If ready, yield the next item (recording the acceptance, ghost) or report
channel closure when the items are exhausted. -/
def pollRecv (o : Oracles E) (m : ResponseStream Req R E) :
    Poll (Option Req) × ResponseStream Req R E :=
  let m1 : ResponseStream Req R E := { m with recvCount := m.recvCount + 1 }
  if o.recv m.recvCount then
    match m.items with
    | [] => (Poll.Ready none, m1)
    | r :: rest =>
        (Poll.Ready (some r), { m1 with items := rest, accepted := m.accepted ++ [r] })
  else
    (Poll.Pending, m1)

/-- `this.service.poll_ready(cx)`: consume one worker-readiness answer. -/
def pollReady (o : Oracles E) (m : ResponseStream Req R E) :
    Poll (Except E Unit) × ResponseStream Req R E :=
  (o.ready m.readyCount, { m with readyCount := m.readyCount + 1 })

/-- `future.poll(cx)` for the in-flight `Svc::Future`: consume one
completion bit. -/
def pollFut (o : Oracles E) (m : ResponseStream Req R E) :
    Bool × ResponseStream Req R E :=
  (o.fut m.futCount, { m with futCount := m.futCount + 1 })

/-- Rank used to justify the self-recursion of `poll_next`
(`WaitingStream` recurses into `WaitingService`, which recurses into
`Existing`). -/
def rank : Inner Req → Nat
  | Inner.WaitingStream => 2
  | Inner.WaitingService _ => 1
  | Inner.Existing _ => 0
  | Inner.Closed => 0

/-- Embedding of `<ResponseStream as Stream>::poll_next`
(`src/response_stream.rs`, lines 44–92).  `out` is the pure outcome of
`Service::call` per request.  Returns the `Poll` result together with the
updated state.  The `ub := true` arm models the
`unsafe { unreachable_unchecked() }` branch. -/
def pollNext (o : Oracles E) (out : Req → Except E R) (m : ResponseStream Req R E) :
    Poll (Option (Except E R)) × ResponseStream Req R E :=
  match hm : m.inner with
  | Inner.WaitingStream =>
    -- let item = ready!(this.receiver.poll_recv(cx));
    match pollRecv o m with
    | (Poll.Pending, m1) => (Poll.Pending, m1)
    | (Poll.Ready (some request), m1) =>
        -- this.inner.set(Inner::WaitingService { request }); self.poll_next(cx)
        pollNext o out (setInner m1 (Inner.WaitingService request))
    | (Poll.Ready none, m1) =>
        -- this.inner.set(Inner::Closed); Poll::Ready(None)
        (Poll.Ready none, setInner m1 Inner.Closed)
  | Inner.WaitingService _ =>
    -- let result = ready!(this.service.poll_ready(cx));
    match pollReady o m with
    | (Poll.Pending, m1) => (Poll.Pending, m1)
    | (Poll.Ready result, m1) =>
        -- let inner = this.inner.as_mut().project_replace(Inner::Closed);
        let pr := projectReplace m1 Inner.Closed
        match pr.1 with
        | Inner.WaitingService request =>
          match result with
          | Except.error e =>
              -- Poll::Ready(Some(Err(err)))
              (Poll.Ready (some (Except.error e)), pushOutput pr.2 (Except.error e))
          | Except.ok _ =>
              -- let future = this.service.call(request);
              -- this.inner.set(Inner::Existing { future }); self.poll_next(cx)
              pollNext o out (startCall (setInner pr.2 (Inner.Existing request)))
        | _ =>
            -- unsafe { unreachable_unchecked() }
            (Poll.Ready none, { pr.2 with ub := true })
  | Inner.Existing request =>
    -- let output = ready!(future.poll(cx));
    match pollFut o m with
    | (false, m1) => (Poll.Pending, m1)
    | (true, m1) =>
        -- this.inner.set(Inner::WaitingStream); Poll::Ready(Some(output))
        (Poll.Ready (some (out request)),
          pushOutput (finishCall (setInner m1 Inner.WaitingStream)) (out request))
  | Inner.Closed =>
    -- Poll::Ready(None)
    (Poll.Ready none, m)
termination_by rank m.inner
decreasing_by
  · simp only [setInner, rank, hm]
    omega
  · simp only [projectReplace, setInner, startCall, rank, hm]
    omega

/-- `ResponseStream::new(service, receiver)`
(`src/response_stream.rs`, lines 99–105): starts in `WaitingStream` with
empty ghost history.  `items` is the full sequence the receiver will
deliver. -/
def new (items : List Req) : ResponseStream Req R E :=
  { items := items
    inner := Inner.WaitingStream
    recvCount := 0
    readyCount := 0
    futCount := 0
    accepted := []
    outputs := []
    callsStarted := 0
    callsFinished := 0
    ub := false }

/-- Drive the stream with `n` consecutive consumer polls, collecting every
`Poll.Ready` value in order (`none` is end-of-sequence); `Poll.Pending`
contributes nothing. -/
def run (o : Oracles E) (out : Req → Except E R) :
    Nat → ResponseStream Req R E → List (Option (Except E R)) × ResponseStream Req R E
  | 0, m => ([], m)
  | n + 1, m =>
    match pollNext o out m with
    | (Poll.Pending, m1) => run o out n m1
    | (Poll.Ready item, m1) =>
        let rest := run o out n m1
        (item :: rest.1, rest.2)

/-- The result yielded to the consumer by one poll, as a (0- or 1-element)
list. -/
def pollYield : Poll (Option (Except E R)) → List (Except E R)
  | Poll.Ready (some x) => [x]
  | _ => []

/-- Number of in-flight `Service::call` futures held by an `Inner` state. -/
def inflight : Inner Req → Nat
  | Inner.Existing _ => 1
  | _ => 0

/-- Counter invariant: every started call except the one possibly held by
`Existing` has resolved. -/
def CallInv (m : ResponseStream Req R E) : Prop :=
  m.callsStarted = m.callsFinished + inflight m.inner

/-- Ordering invariant: the yielded outputs are exactly the worker outcomes
of the accepted requests, except that in `WaitingService`/`Existing` the
last accepted request is still pending. -/
def OrderInv (out : Req → Except E R) (m : ResponseStream Req R E) : Prop :=
  match m.inner with
  | Inner.WaitingStream => m.outputs = m.accepted.map out
  | Inner.Closed => m.outputs = m.accepted.map out
  | Inner.WaitingService r => ∃ pre, m.accepted = pre ++ [r] ∧ m.outputs = pre.map out
  | Inner.Existing r => ∃ pre, m.accepted = pre ++ [r] ∧ m.outputs = pre.map out

/-- The everything-immediately-ready schedule: the source always has its
answer, `poll_ready` always returns `Ok(())`, in-flight futures resolve on
their first poll. -/
def immediate : Oracles E :=
  { recv := fun _ => true
    ready := fun _ => Poll.Ready (Except.ok ())
    fut := fun _ => true }

end ResponseStream

/-!
### `src/lib.rs`: the producer side

The bounded mpsc channel is modelled by its capacity, its current queue
content, and whether the consumer half is still alive.  The `tracing`
visitor machinery (`MakeVisitor`, `Event::record`, `VisitOutput::finish`)
is external to this crate; the whole "build a `Request` from the event's
structured fields, starting from `Request::default()`" pipeline of
`on_event` lines 139–149 is abstracted into one function `build`.
-/

/-- Consumer-visible state of a `tokio::sync::mpsc::channel(buffer)`:
`capacity` is the bound, `queue` the undelivered items, `rxAlive` whether
the receiver half still exists. -/
structure Channel (Req : Type u) where
  capacity : Nat
  queue : List Req
  rxAlive : Bool
deriving Repr, DecidableEq

/-- `tokio::sync::mpsc::channel(buffer)`: fresh empty bounded queue. -/
def channel (Req : Type u) (buffer : Nat) : Channel Req :=
  { capacity := buffer, queue := [], rxAlive := true }

/-- Mirror of `tokio::sync::mpsc::error::TrySendError`. -/
inductive TrySendError (T : Type u) where
  | Full : T → TrySendError T
  | Closed : T → TrySendError T
deriving Repr, DecidableEq

/-- `Sender::try_send`: non-blocking offer.  Fails with `Closed` when the
receiver half is gone, with `Full` when the queue is at capacity; in both
failure cases the queue is untouched. -/
def trySend (c : Channel Req) (value : Req) :
    Channel Req × Except (TrySendError Req) Unit :=
  if c.rxAlive = false then
    (c, Except.error (TrySendError.Closed value))
  else if c.capacity ≤ c.queue.length then
    (c, Except.error (TrySendError.Full value))
  else
    ({ c with queue := c.queue ++ [value] }, Except.ok ())

/-- `sealed::SyncSender` impl for the bounded `Sender`
(`src/lib.rs`, lines 111–117): `sink_send` is `try_send`. -/
def sink_send (c : Channel Req) (value : Req) :
    Channel Req × Except (TrySendError Req) Unit :=
  trySend c value

/-- Mirror of the `ServiceLayer` struct (`src/lib.rs`, lines 24–28); the
`PhantomData` marker is dropped. -/
structure ServiceLayer (MakeVisitor Sink : Type u) where
  make_visitor : MakeVisitor
  sink : Sink

namespace ServiceLayer

/-- `ServiceLayer::DEFAULT_BUFFER` (`src/lib.rs`, line 53). -/
def DEFAULT_BUFFER : Nat := 32

/-- `ServiceLayer::new_with_buffer(service, make_visitor, buffer)`
(`src/lib.rs`, lines 58–76): create a bounded channel of capacity
`buffer`, keep its sender as the layer's sink, and wrap its receiver in a
fresh `ResponseStream`.  The handle pairs the service value with the
initial stream state (nothing queued yet, so the stream starts with no
items). -/
def new_with_buffer {Svc MV Req R E : Type} (service : Svc) (make_visitor : MV)
    (buffer : Nat) :
    ServiceLayer MV (Channel Req) × (Svc × ResponseStream Req R E) :=
  ({ make_visitor := make_visitor, sink := channel Req buffer },
    (service, ResponseStream.new []))

/-- `ServiceLayer::new(service, visitor)` (`src/lib.rs`, lines 82–90):
delegate to `new_with_buffer` with `DEFAULT_BUFFER`. -/
def new {Svc MV Req R E : Type} (service : Svc) (visitor : MV) :
    ServiceLayer MV (Channel Req) × (Svc × ResponseStream Req R E) :=
  new_with_buffer service visitor DEFAULT_BUFFER

/-- `Layer::on_event` for `ServiceLayer` with a bounded sink
(`src/lib.rs`, lines 137–155): build the request from the event (the
visitor pipeline is abstracted by `build`; its `finish()` error is ignored
by the source, `// TODO`), then `sink_send` it, discarding any
`TrySendError` (`// TODO: This can error in two ways, ...`).  Returns the
channel as the consumer will observe it. -/
def on_event {Ev Req : Type} (build : Ev → Req) (c : Channel Req) (event : Ev) :
    Channel Req :=
  let request := build event
  (sink_send c request).1

end ServiceLayer

/-! ### Concrete fixtures (`Req = Nat`, `R = Nat`, `E = String`) -/

/-- A worker that multiplies by ten. -/
def okOutcome : Nat → Except String Nat :=
  fun n => Except.ok (n * 10)

/-- A worker whose call on request `1` fails. -/
def failAtOne : Nat → Except String Nat :=
  fun n => if n = 1 then Except.error "fail" else Except.ok n

/-- A schedule with readiness delays on the source and the in-flight
future, but a worker whose readiness check always succeeds. -/
def delayedOracles : Oracles String :=
  { recv := fun k => k % 2 == 1
    ready := fun _ => Poll.Ready (Except.ok ())
    fut := fun k => k % 2 == 0 }

/-- A schedule whose worker readiness check always fails. -/
def errOracles : Oracles String :=
  { recv := fun _ => true
    ready := fun _ => Poll.Ready (Except.error "boom")
    fut := fun _ => true }

/-- A freshly constructed stream over an already-exhausted source. -/
def emptyStream : ResponseStream Nat Nat String :=
  ResponseStream.new []

/-- A stream waiting on worker readiness for pending request `7`, with
item `5` still queued in the source. -/
def mService : ResponseStream Nat Nat String :=
  { ResponseStream.new [5] with inner := Inner.WaitingService 7 }

/-- A stream with request `1` in flight and item `2` still queued. -/
def mExisting : ResponseStream Nat Nat String :=
  { ResponseStream.new [2] with inner := Inner.Existing 1 }

/-- A stream already in the terminal `Closed` state. -/
def mClosed : ResponseStream Nat Nat String :=
  { ResponseStream.new [] with inner := Inner.Closed }

/-- A bounded channel whose consumer half has been released. -/
def cClosed : Channel Nat :=
  { capacity := 2, queue := [], rxAlive := false }

/-- A bounded channel at capacity. -/
def cFull : Channel Nat :=
  { capacity := 1, queue := [9], rxAlive := true }

namespace ResponseStream

/-! ### Step characterization of `poll_next`, one lemma per source branch -/

/-- `Closed` arm: yield end-of-sequence, state untouched. -/
theorem pollNext_closed (o : Oracles E) (out : Req → Except E R)
    (m : ResponseStream Req R E) (h : m.inner = Inner.Closed) :
    pollNext o out m = (Poll.Ready none, m) := by
  rw [pollNext.eq_def, h]

/-- `Existing` arm, future not complete: suspend. -/
theorem pollNext_existing_pending (o : Oracles E) (out : Req → Except E R)
    (m : ResponseStream Req R E) (r : Req) (h : m.inner = Inner.Existing r)
    (hf : o.fut m.futCount = false) :
    pollNext o out m = (Poll.Pending, { m with futCount := m.futCount + 1 }) := by
  rw [pollNext.eq_def, h]
  simp [pollFut, hf, h]

/-- `Existing` arm, future complete: yield the outcome, return to `WaitingStream`. -/
theorem pollNext_existing_ready (o : Oracles E) (out : Req → Except E R)
    (m : ResponseStream Req R E) (r : Req) (h : m.inner = Inner.Existing r)
    (hf : o.fut m.futCount = true) :
    pollNext o out m =
      (Poll.Ready (some (out r)),
        { m with futCount := m.futCount + 1, inner := Inner.WaitingStream,
                 callsFinished := m.callsFinished + 1, outputs := m.outputs ++ [out r] }) := by
  rw [pollNext.eq_def, h]
  simp [pollFut, hf, setInner, finishCall, pushOutput]

/-- `WaitingService` arm, `poll_ready` pending: suspend, keep the pending request. -/
theorem pollNext_service_pending (o : Oracles E) (out : Req → Except E R)
    (m : ResponseStream Req R E) (r : Req) (h : m.inner = Inner.WaitingService r)
    (hr : o.ready m.readyCount = Poll.Pending) :
    pollNext o out m = (Poll.Pending, { m with readyCount := m.readyCount + 1 }) := by
  rw [pollNext.eq_def, h]
  simp [pollReady, hr, h]

/-- `WaitingService` arm, `poll_ready` fails: yield the error; the intermediate
`Closed` written by `project_replace` is left in place. -/
theorem pollNext_service_err (o : Oracles E) (out : Req → Except E R)
    (m : ResponseStream Req R E) (r : Req) (e : E) (h : m.inner = Inner.WaitingService r)
    (hr : o.ready m.readyCount = Poll.Ready (Except.error e)) :
    pollNext o out m =
      (Poll.Ready (some (Except.error e)),
        { m with readyCount := m.readyCount + 1, inner := Inner.Closed,
                 outputs := m.outputs ++ [Except.error e] }) := by
  rw [pollNext.eq_def, h]
  simp [pollReady, hr, projectReplace, h, pushOutput]

/-- `WaitingService` arm, `poll_ready` ok: `Service::call` the pending request
and re-enter `poll_next` in `Existing`. -/
theorem pollNext_service_ok (o : Oracles E) (out : Req → Except E R)
    (m : ResponseStream Req R E) (r : Req) (u : Unit) (h : m.inner = Inner.WaitingService r)
    (hr : o.ready m.readyCount = Poll.Ready (Except.ok u)) :
    pollNext o out m =
      pollNext o out
        { m with readyCount := m.readyCount + 1, inner := Inner.Existing r,
                 callsStarted := m.callsStarted + 1 } := by
  rw [pollNext.eq_def, h]
  simp [pollReady, hr, projectReplace, h, setInner, startCall]

/-- `WaitingStream` arm, receiver pending: suspend. -/
theorem pollNext_stream_pending (o : Oracles E) (out : Req → Except E R)
    (m : ResponseStream Req R E) (h : m.inner = Inner.WaitingStream)
    (hr : o.recv m.recvCount = false) :
    pollNext o out m = (Poll.Pending, { m with recvCount := m.recvCount + 1 }) := by
  rw [pollNext.eq_def, h]
  simp [pollRecv, hr, h]

/-- `WaitingStream` arm, receiver closed (exhausted): go to `Closed`, yield
end-of-sequence. -/
theorem pollNext_stream_none (o : Oracles E) (out : Req → Except E R)
    (m : ResponseStream Req R E) (h : m.inner = Inner.WaitingStream)
    (hr : o.recv m.recvCount = true) (hi : m.items = []) :
    pollNext o out m =
      (Poll.Ready none, { m with recvCount := m.recvCount + 1, inner := Inner.Closed }) := by
  rw [pollNext.eq_def, h]
  simp [pollRecv, hr, hi, setInner]

/-- `WaitingStream` arm, item available: accept it and re-enter `poll_next` in
`WaitingService`. -/
theorem pollNext_stream_some (o : Oracles E) (out : Req → Except E R)
    (m : ResponseStream Req R E) (r : Req) (rest : List Req) (h : m.inner = Inner.WaitingStream)
    (hr : o.recv m.recvCount = true) (hi : m.items = r :: rest) :
    pollNext o out m =
      pollNext o out
        { m with recvCount := m.recvCount + 1, items := rest,
                 accepted := m.accepted ++ [r], inner := Inner.WaitingService r } := by
  rw [pollNext.eq_def, h]
  simp [pollRecv, hr, hi, setInner]

/-! ### Ghost-field step lemmas -/

/-- One poll starting in `Existing`: ghost bookkeeping. -/
theorem step_ghost_existing (o : Oracles E) (out : Req → Except E R)
    (m : ResponseStream Req R E) (r : Req) (h : m.inner = Inner.Existing r) :
    (pollNext o out m).2.ub = m.ub ∧
    (pollNext o out m).2.outputs = m.outputs ++ pollYield (pollNext o out m).1 ∧
    (pollNext o out m).2.accepted = m.accepted ∧
    (pollNext o out m).2.items = m.items ∧
    (pollNext o out m).2.callsStarted = m.callsStarted ∧
    (CallInv m → CallInv (pollNext o out m).2) ∧
    (OrderInv out m → OrderInv out (pollNext o out m).2) := by
  cases hf : o.fut m.futCount
  · rw [pollNext_existing_pending o out m r h hf]
    simp [pollYield, CallInv, OrderInv, h]
  · rw [pollNext_existing_ready o out m r h hf]
    refine ⟨rfl, by simp [pollYield], rfl, rfl, rfl, ?_, ?_⟩
    · intro hc
      simp only [CallInv, inflight, h] at hc ⊢
      omega
    · intro ho
      simp only [OrderInv, h] at ho ⊢
      obtain ⟨pre, hacc, hout⟩ := ho
      simp [hacc, hout, List.map_append]

/-- One poll starting in `WaitingService`: ghost bookkeeping. -/
theorem step_ghost_service (o : Oracles E) (out : Req → Except E R)
    (m : ResponseStream Req R E) (r : Req) (h : m.inner = Inner.WaitingService r) :
    (pollNext o out m).2.ub = m.ub ∧
    (pollNext o out m).2.outputs = m.outputs ++ pollYield (pollNext o out m).1 ∧
    (pollNext o out m).2.accepted = m.accepted ∧
    (pollNext o out m).2.items = m.items ∧
    (CallInv m → CallInv (pollNext o out m).2) ∧
    ((∀ k e, o.ready k ≠ Poll.Ready (Except.error e)) →
      OrderInv out m → OrderInv out (pollNext o out m).2) := by
  cases hr : o.ready m.readyCount with
  | Pending =>
    rw [pollNext_service_pending o out m r h hr]
    simp [pollYield, CallInv, OrderInv, h]
  | Ready res =>
    cases res with
    | error e =>
      rw [pollNext_service_err o out m r e h hr]
      refine ⟨rfl, by simp [pollYield], rfl, rfl, ?_, ?_⟩
      · intro hc
        simp only [CallInv, inflight, h] at hc ⊢
        omega
      · intro hE _
        exact absurd hr (hE m.readyCount e)
    | ok u =>
      rw [pollNext_service_ok o out m r u h hr]
      have h2 := step_ghost_existing o out
        { m with readyCount := m.readyCount + 1, inner := Inner.Existing r,
                 callsStarted := m.callsStarted + 1 } r rfl
      refine ⟨by simpa using h2.1, by simpa using h2.2.1, by simpa using h2.2.2.1,
        by simpa using h2.2.2.2.1, ?_, ?_⟩
      · intro hc
        apply h2.2.2.2.2.2.1
        simp only [CallInv, inflight, h] at hc ⊢
        omega
      · intro _ ho
        apply h2.2.2.2.2.2.2
        simp only [OrderInv, h] at ho ⊢
        exact ho

/-- One poll starting in `WaitingStream`: ghost bookkeeping. -/
theorem step_ghost_stream (o : Oracles E) (out : Req → Except E R)
    (m : ResponseStream Req R E) (h : m.inner = Inner.WaitingStream) :
    (pollNext o out m).2.ub = m.ub ∧
    (pollNext o out m).2.outputs = m.outputs ++ pollYield (pollNext o out m).1 ∧
    (CallInv m → CallInv (pollNext o out m).2) ∧
    ((∀ k e, o.ready k ≠ Poll.Ready (Except.error e)) →
      OrderInv out m → OrderInv out (pollNext o out m).2) := by
  cases hrecv : o.recv m.recvCount
  · rw [pollNext_stream_pending o out m h hrecv]
    simp [pollYield, CallInv, OrderInv, h]
  · cases hi : m.items with
    | nil =>
      rw [pollNext_stream_none o out m h hrecv hi]
      refine ⟨rfl, by simp [pollYield], ?_, ?_⟩
      · intro hc
        simp only [CallInv, inflight, h] at hc ⊢
        omega
      · intro _ ho
        simp only [OrderInv, h] at ho ⊢
        exact ho
    | cons r rest =>
      rw [pollNext_stream_some o out m r rest h hrecv hi]
      have h2 := step_ghost_service o out
        { m with recvCount := m.recvCount + 1, items := rest,
                 accepted := m.accepted ++ [r], inner := Inner.WaitingService r } r rfl
      refine ⟨by simpa using h2.1, by simpa using h2.2.1, ?_, ?_⟩
      · intro hc
        apply h2.2.2.2.2.1
        simp only [CallInv, inflight, h] at hc ⊢
        omega
      · intro hE ho
        apply h2.2.2.2.2.2 hE
        simp only [OrderInv, h] at ho ⊢
        exact ⟨m.accepted, rfl, ho⟩

/-- One poll from any state: the `unreachable_unchecked` flag is never
raised, outputs grow exactly by the yielded result, and both ghost
invariants are preserved. -/
theorem step_ghost (o : Oracles E) (out : Req → Except E R)
    (m : ResponseStream Req R E) :
    (pollNext o out m).2.ub = m.ub ∧
    (pollNext o out m).2.outputs = m.outputs ++ pollYield (pollNext o out m).1 ∧
    (CallInv m → CallInv (pollNext o out m).2) ∧
    ((∀ k e, o.ready k ≠ Poll.Ready (Except.error e)) →
      OrderInv out m → OrderInv out (pollNext o out m).2) := by
  cases hm : m.inner with
  | WaitingStream => exact step_ghost_stream o out m hm
  | WaitingService r =>
    have h2 := step_ghost_service o out m r hm
    exact ⟨h2.1, h2.2.1, h2.2.2.2.2.1, h2.2.2.2.2.2⟩
  | Existing r =>
    have h2 := step_ghost_existing o out m r hm
    exact ⟨h2.1, h2.2.1, h2.2.2.2.2.2.1, fun _ => h2.2.2.2.2.2.2⟩
  | Closed =>
    rw [pollNext_closed o out m hm]
    simp [pollYield, CallInv, OrderInv, hm]

/-- `callsStarted` can only change during a poll that began with no call in
flight. -/
theorem step_calls (o : Oracles E) (out : Req → Except E R)
    (m : ResponseStream Req R E)
    (h : (pollNext o out m).2.callsStarted ≠ m.callsStarted) :
    inflight m.inner = 0 := by
  cases hm : m.inner with
  | WaitingStream => rfl
  | WaitingService r => rfl
  | Existing r =>
    exact absurd (step_ghost_existing o out m r hm).2.2.2.2.1 h
  | Closed =>
    rw [pollNext_closed o out m hm] at h
    exact absurd rfl h

/-! ### Multi-poll executions -/

/-- From `Closed`, every poll yields end-of-sequence and the state never
changes. -/
theorem run_closed (o : Oracles E) (out : Req → Except E R)
    (m : ResponseStream Req R E) (h : m.inner = Inner.Closed) :
    ∀ n, run o out n m = (List.replicate n none, m) := by
  intro n
  induction n with
  | zero => simp [run]
  | succ k ih =>
    rw [run, pollNext_closed o out m h]
    simp [ih, List.replicate_succ]

/-- Splitting an execution. -/
theorem run_append (o : Oracles E) (out : Req → Except E R) :
    ∀ (a b : Nat) (m : ResponseStream Req R E),
      run o out (a + b) m =
        ((run o out a m).1 ++ (run o out b (run o out a m).2).1,
          (run o out b (run o out a m).2).2) := by
  intro a
  induction a with
  | zero => intro b m; simp [run]
  | succ k ih =>
    intro b m
    rw [Nat.succ_add, run, run]
    cases hp : pollNext o out m with
    | mk res m1 =>
      cases res with
      | Pending => simpa using ih b m1
      | Ready item => simp [ih b m1]

/-- Over a whole execution: the UB flag never rises, the ghost output list
is exactly the non-end-of-sequence results yielded to the consumer, and
both ghost invariants are preserved. -/
theorem run_ghost (o : Oracles E) (out : Req → Except E R) :
    ∀ (n : Nat) (m : ResponseStream Req R E),
      (run o out n m).2.ub = m.ub ∧
      (run o out n m).2.outputs = m.outputs ++ (run o out n m).1.reduceOption ∧
      (CallInv m → CallInv (run o out n m).2) ∧
      ((∀ k e, o.ready k ≠ Poll.Ready (Except.error e)) →
        OrderInv out m → OrderInv out (run o out n m).2) := by
  intro n
  induction n with
  | zero => intro m; simp [run]
  | succ k ih =>
    intro m
    have hs := step_ghost o out m
    rw [run]
    cases hp : pollNext o out m with
    | mk res m1 =>
      rw [hp] at hs
      cases res with
      | Pending =>
        have h1 := ih m1
        simp only [pollYield] at hs
        refine ⟨by rw [h1.1, hs.1], ?_, fun hc => h1.2.2.1 (hs.2.2.1 hc),
          fun hE ho => h1.2.2.2 hE (hs.2.2.2 hE ho)⟩
        rw [h1.2.1, hs.2.1]
        simp
      | Ready item =>
        have h1 := ih m1
        refine ⟨by simpa [h1.1] using hs.1, ?_, fun hc => h1.2.2.1 (hs.2.2.1 hc),
          fun hE ho => h1.2.2.2 hE (hs.2.2.2 hE ho)⟩
        simp only
        rw [h1.2.1, hs.2.1]
        cases item with
        | none => simp [pollYield]
        | some x => simp [pollYield]

/-- Under the immediate schedule, one poll in `WaitingStream` with an item
available runs a full accept–submit–resolve cycle and yields the item's
outcome. -/
theorem pollNext_immediate_cycle (out : Req → Except E R)
    (m : ResponseStream Req R E) (r : Req) (rest : List Req)
    (h : m.inner = Inner.WaitingStream) (hi : m.items = r :: rest) :
    pollNext (immediate (E := E)) out m =
      (Poll.Ready (some (out r)),
        { m with recvCount := m.recvCount + 1, readyCount := m.readyCount + 1,
                 futCount := m.futCount + 1, items := rest,
                 accepted := m.accepted ++ [r], inner := Inner.WaitingStream,
                 callsStarted := m.callsStarted + 1,
                 callsFinished := m.callsFinished + 1,
                 outputs := m.outputs ++ [out r] }) := by
  rw [pollNext_stream_some (immediate (E := E)) out m r rest h rfl hi]
  rw [pollNext_service_ok (immediate (E := E)) out _ r () rfl rfl]
  rw [pollNext_existing_ready (immediate (E := E)) out _ r rfl rfl]

/-- Under the immediate schedule, a stream in `WaitingStream` holding
`items` yields exactly the items' outcomes followed by end-of-sequence in
`items.length + 1` polls, finishing `Closed` with nothing left. -/
theorem run_immediate (out : Req → Except E R) :
    ∀ (items : List Req) (m : ResponseStream Req R E),
      m.inner = Inner.WaitingStream → m.items = items →
      (run (immediate (E := E)) out (items.length + 1) m).1 =
        items.map (fun r => some (out r)) ++ [none] ∧
      (run (immediate (E := E)) out (items.length + 1) m).2.inner = Inner.Closed := by
  intro items
  induction items with
  | nil =>
    intro m h hi
    rw [show ([] : List Req).length + 1 = 1 from rfl, run,
      pollNext_stream_none (immediate (E := E)) out m h rfl hi]
    simp [run]
  | cons r rest ih =>
    intro m h hi
    rw [show (r :: rest).length + 1 = (rest.length + 1) + 1 from rfl, run,
      pollNext_immediate_cycle out m r rest h hi]
    have h1 := ih ({ m with recvCount := m.recvCount + 1, readyCount := m.readyCount + 1, futCount := m.futCount + 1, items := rest, accepted := m.accepted ++ [r], inner := Inner.WaitingStream, callsStarted := m.callsStarted + 1, callsFinished := m.callsFinished + 1, outputs := m.outputs ++ [out r] }) rfl rfl
    simp only [List.map_cons, List.cons_append]
    exact ⟨by rw [h1.1], h1.2⟩

/-! ### Liveness under fair schedules

A schedule is fair for a resource when, from every poll count, the
resource eventually answers ready.  Under fairness the stream makes
progress: each pending request is eventually accepted, submitted and
resolved, no matter how the three readiness sources interleave. -/

/-- Two states with the same one-poll behaviour have the same behaviour
over any positive number of polls. -/
theorem run_congr (o : Oracles E) (out : Req → Except E R)
    (m m2 : ResponseStream Req R E)
    (h : pollNext o out m = pollNext o out m2) (n : Nat) :
    run o out (n + 1) m = run o out (n + 1) m2 := by
  rw [run, run, h]

/-- From `Existing r`: if the future answers ready `d` future-polls from
now, some number of polls yields exactly `out r` and returns to
`WaitingStream`, leaving source state and counters untouched. -/
theorem wait_fut (o : Oracles E) (out : Req → Except E R) :
    ∀ (d : Nat) (m : ResponseStream Req R E) (r : Req),
      m.inner = Inner.Existing r → o.fut (m.futCount + d) = true →
      ∃ k m2, run o out (k + 1) m = ([some (out r)], m2) ∧
        m2.inner = Inner.WaitingStream ∧ m2.items = m.items ∧
        m2.recvCount = m.recvCount ∧ m2.readyCount = m.readyCount := by
  intro d
  induction d with
  | zero =>
    intro m r h hf
    refine ⟨0, { m with futCount := m.futCount + 1, inner := Inner.WaitingStream, callsFinished := m.callsFinished + 1, outputs := m.outputs ++ [out r] }, ?_, rfl, rfl, rfl, rfl⟩
    rw [run, pollNext_existing_ready o out m r h (by simpa using hf)]
    rfl
  | succ d ih =>
    intro m r h hf
    cases hnow : o.fut m.futCount
    · obtain ⟨k, m2, hrun, h1, h2, h3, h4⟩ :=
        ih { m with futCount := m.futCount + 1 } r h
          (by show o.fut (m.futCount + 1 + d) = true
              rw [Nat.add_right_comm, Nat.add_assoc]
              exact hf)
      refine ⟨k + 1, m2, ?_, h1, h2, h3, h4⟩
      rw [run, pollNext_existing_pending o out m r h hnow]
      exact hrun
    · refine ⟨0, { m with futCount := m.futCount + 1, inner := Inner.WaitingStream, callsFinished := m.callsFinished + 1, outputs := m.outputs ++ [out r] }, ?_, rfl, rfl, rfl, rfl⟩
      rw [run, pollNext_existing_ready o out m r h hnow]
      rfl

/-- From `WaitingService r` with the readiness check answering ok right
now: submit, then wait out the future fairly. -/
theorem service_ready_now (o : Oracles E) (out : Req → Except E R)
    (hfut : ∀ c, ∃ d, o.fut (c + d) = true)
    (m : ResponseStream Req R E) (r : Req)
    (h : m.inner = Inner.WaitingService r)
    (hr : o.ready m.readyCount = Poll.Ready (Except.ok ())) :
    ∃ k m2, run o out (k + 1) m = ([some (out r)], m2) ∧
      m2.inner = Inner.WaitingStream ∧ m2.items = m.items ∧
      m2.recvCount = m.recvCount := by
  obtain ⟨d2, hd2⟩ := hfut m.futCount
  obtain ⟨k, m2, hrun, h1, h2, h3, h4⟩ :=
    wait_fut o out d2 { m with readyCount := m.readyCount + 1, inner := Inner.Existing r, callsStarted := m.callsStarted + 1 } r rfl hd2
  refine ⟨k, m2, ?_, h1, h2, h3⟩
  rw [run_congr o out m { m with readyCount := m.readyCount + 1, inner := Inner.Existing r, callsStarted := m.callsStarted + 1 } (pollNext_service_ok o out m r () h hr) k]
  exact hrun

/-- From `WaitingService r`: under a never-failing, fair readiness check
and a fair future, some number of polls yields exactly `out r` and
returns to `WaitingStream`. -/
theorem wait_ready (o : Oracles E) (out : Req → Except E R)
    (hE : ∀ k e, o.ready k ≠ Poll.Ready (Except.error e))
    (hfut : ∀ c, ∃ d, o.fut (c + d) = true) :
    ∀ (d : Nat) (m : ResponseStream Req R E) (r : Req),
      m.inner = Inner.WaitingService r →
      o.ready (m.readyCount + d) = Poll.Ready (Except.ok ()) →
      ∃ k m2, run o out (k + 1) m = ([some (out r)], m2) ∧
        m2.inner = Inner.WaitingStream ∧ m2.items = m.items ∧
        m2.recvCount = m.recvCount := by
  intro d
  induction d with
  | zero =>
    intro m r h hr
    exact service_ready_now o out hfut m r h (by simpa using hr)
  | succ d ih =>
    intro m r h hr
    cases hnow : o.ready m.readyCount with
    | Pending =>
      obtain ⟨k, m2, hrun, h1, h2, h3⟩ :=
        ih { m with readyCount := m.readyCount + 1 } r h
          (by show o.ready (m.readyCount + 1 + d) = Poll.Ready (Except.ok ())
              rw [Nat.add_right_comm, Nat.add_assoc]
              exact hr)
      refine ⟨k + 1, m2, ?_, h1, h2, h3⟩
      rw [run, pollNext_service_pending o out m r h hnow]
      exact hrun
    | Ready res =>
      cases res with
      | error e => exact absurd hnow (hE m.readyCount e)
      | ok u =>
        cases u
        exact service_ready_now o out hfut m r h hnow

/-- From `WaitingStream` with an item available right now: accept it,
then wait out worker readiness and the future fairly. -/
theorem stream_accept_now (o : Oracles E) (out : Req → Except E R)
    (hE : ∀ k e, o.ready k ≠ Poll.Ready (Except.error e))
    (hreadyF : ∀ c, ∃ d, o.ready (c + d) = Poll.Ready (Except.ok ()))
    (hfut : ∀ c, ∃ d, o.fut (c + d) = true)
    (m : ResponseStream Req R E) (r : Req) (rest : List Req)
    (h : m.inner = Inner.WaitingStream) (hi : m.items = r :: rest)
    (hnow : o.recv m.recvCount = true) :
    ∃ k m2, run o out (k + 1) m = ([some (out r)], m2) ∧
      m2.inner = Inner.WaitingStream ∧ m2.items = rest := by
  obtain ⟨d3, hd3⟩ := hreadyF m.readyCount
  obtain ⟨k, m2, hrun, h1, h2, h3⟩ :=
    wait_ready o out hE hfut d3 { m with recvCount := m.recvCount + 1, items := rest, accepted := m.accepted ++ [r], inner := Inner.WaitingService r } r rfl hd3
  refine ⟨k, m2, ?_, h1, h2⟩
  rw [run_congr o out m { m with recvCount := m.recvCount + 1, items := rest, accepted := m.accepted ++ [r], inner := Inner.WaitingService r } (pollNext_stream_some o out m r rest h hnow hi) k]
  exact hrun

/-- From `WaitingStream` with an item queued: under fair schedules some
number of polls yields exactly that item's outcome. -/
theorem wait_recv (o : Oracles E) (out : Req → Except E R)
    (hE : ∀ k e, o.ready k ≠ Poll.Ready (Except.error e))
    (hreadyF : ∀ c, ∃ d, o.ready (c + d) = Poll.Ready (Except.ok ()))
    (hfut : ∀ c, ∃ d, o.fut (c + d) = true) :
    ∀ (d : Nat) (m : ResponseStream Req R E) (r : Req) (rest : List Req),
      m.inner = Inner.WaitingStream → m.items = r :: rest →
      o.recv (m.recvCount + d) = true →
      ∃ k m2, run o out (k + 1) m = ([some (out r)], m2) ∧
        m2.inner = Inner.WaitingStream ∧ m2.items = rest := by
  intro d
  induction d with
  | zero =>
    intro m r rest h hi hr
    exact stream_accept_now o out hE hreadyF hfut m r rest h hi (by simpa using hr)
  | succ d ih =>
    intro m r rest h hi hr
    cases hnow : o.recv m.recvCount
    · obtain ⟨k, m2, hrun, h1, h2⟩ :=
        ih { m with recvCount := m.recvCount + 1 } r rest h hi
          (by show o.recv (m.recvCount + 1 + d) = true
              rw [Nat.add_right_comm, Nat.add_assoc]
              exact hr)
      refine ⟨k + 1, m2, ?_, h1, h2⟩
      rw [run, pollNext_stream_pending o out m h hnow]
      exact hrun
    · exact stream_accept_now o out hE hreadyF hfut m r rest h hi hnow

/-- From `WaitingStream` over an exhausted source: under a fair source
some number of polls yields end-of-sequence and closes the stream. -/
theorem wait_exhaust (o : Oracles E) (out : Req → Except E R) :
    ∀ (d : Nat) (m : ResponseStream Req R E),
      m.inner = Inner.WaitingStream → m.items = [] →
      o.recv (m.recvCount + d) = true →
      ∃ k m2, run o out (k + 1) m = ([none], m2) ∧ m2.inner = Inner.Closed := by
  intro d
  induction d with
  | zero =>
    intro m h hi hr
    refine ⟨0, { m with recvCount := m.recvCount + 1, inner := Inner.Closed }, ?_, rfl⟩
    rw [run, pollNext_stream_none o out m h (by simpa using hr) hi]
    rfl
  | succ d ih =>
    intro m h hi hr
    cases hnow : o.recv m.recvCount
    · obtain ⟨k, m2, hrun, h1⟩ :=
        ih { m with recvCount := m.recvCount + 1 } h hi
          (by show o.recv (m.recvCount + 1 + d) = true
              rw [Nat.add_right_comm, Nat.add_assoc]
              exact hr)
      refine ⟨k + 1, m2, ?_, h1⟩
      rw [run, pollNext_stream_pending o out m h hnow]
      exact hrun
    · refine ⟨0, { m with recvCount := m.recvCount + 1, inner := Inner.Closed }, ?_, rfl⟩
      rw [run, pollNext_stream_none o out m h hnow hi]
      rfl

/-- Under fair schedules with a never-failing readiness check, a stream
in `WaitingStream` holding `items` reaches, in some number of polls, the
full yield ledger: every item's outcome in order, then end-of-sequence,
ending `Closed`. -/
theorem run_fair (o : Oracles E) (out : Req → Except E R)
    (hE : ∀ k e, o.ready k ≠ Poll.Ready (Except.error e))
    (hreadyF : ∀ c, ∃ d, o.ready (c + d) = Poll.Ready (Except.ok ()))
    (hrecvF : ∀ c, ∃ d, o.recv (c + d) = true)
    (hfut : ∀ c, ∃ d, o.fut (c + d) = true) :
    ∀ (items : List Req) (m : ResponseStream Req R E),
      m.inner = Inner.WaitingStream → m.items = items →
      ∃ M, (run o out M m).1 = items.map (fun r => some (out r)) ++ [none] ∧
        (run o out M m).2.inner = Inner.Closed := by
  intro items
  induction items with
  | nil =>
    intro m h hi
    obtain ⟨d, hd⟩ := hrecvF m.recvCount
    obtain ⟨k, m2, hrun, h1⟩ := wait_exhaust o out d m h hi hd
    refine ⟨k + 1, ?_, ?_⟩
    · rw [hrun]
      rfl
    · rw [hrun]
      exact h1
  | cons r rest ih =>
    intro m h hi
    obtain ⟨d, hd⟩ := hrecvF m.recvCount
    obtain ⟨k1, m2, hrun1, h1, h2⟩ := wait_recv o out hE hreadyF hfut d m r rest h hi hd
    obtain ⟨M2, hr2, hc2⟩ := ih m2 h1 h2
    have ha := run_append o out (k1 + 1) M2 m
    rw [hrun1] at ha
    refine ⟨k1 + 1 + M2, ?_, ?_⟩
    · rw [ha]
      show [some (out r)] ++ (run o out M2 m2).1 =
        (r :: rest).map (fun r => some (out r)) ++ [none]
      rw [hr2]
      simp
    · rw [ha]
      show (run o out M2 m2).2.inner = Inner.Closed
      exact hc2

end ResponseStream

/-! ### The claims -/

open ResponseStream

/-- C3: if the worker's readiness check fails while request `r` is pending
in `WaitingService`, `poll_next` yields that error as one failure result,
the state becomes `Closed`, `r` is never submitted via `Service::call`, no
further item is pulled from the source, and every subsequent poll returns
end-of-sequence. -/
theorem claim3_terminal_readiness_failure {Req R E : Type} (o : Oracles E)
    (out : Req → Except E R) (m : ResponseStream Req R E) (r : Req) (e : E)
    (h : m.inner = Inner.WaitingService r)
    (hr : o.ready m.readyCount = Poll.Ready (Except.error e)) :
    (pollNext o out m).1 = Poll.Ready (some (Except.error e)) ∧
    (pollNext o out m).2.inner = Inner.Closed ∧
    (pollNext o out m).2.callsStarted = m.callsStarted ∧
    (pollNext o out m).2.accepted = m.accepted ∧
    (pollNext o out m).2.items = m.items ∧
    (pollNext o out m).2.recvCount = m.recvCount ∧
    ∀ k, run o out k (pollNext o out m).2 =
      (List.replicate k none, (pollNext o out m).2) := by
  rw [pollNext_service_err o out m r e h hr]
  exact ⟨rfl, rfl, rfl, rfl, rfl, rfl, run_closed o out _ rfl⟩

/-- C3 witness: with an always-failing readiness check and pending request
`7`, the stream surfaces `"boom"` once, pulls nothing further, and then
only yields end-of-sequence. -/
theorem claim3_witness :
    (pollNext errOracles okOutcome mService).1 =
      Poll.Ready (some (Except.error "boom")) ∧
    (pollNext errOracles okOutcome mService).2.accepted = mService.accepted ∧
    (pollNext errOracles okOutcome mService).2.callsStarted = mService.callsStarted ∧
    (run errOracles okOutcome 2 (pollNext errOracles okOutcome mService).2).1 =
      [none, none] := by
  have h := claim3_terminal_readiness_failure errOracles okOutcome mService 7 "boom" rfl rfl
  refine ⟨h.1, h.2.2.2.1, h.2.2.1, ?_⟩
  rw [h.2.2.2.2.2.2 2]
  rfl

/-- C6: `Closed` is terminal: every poll from a `Closed` state immediately
returns end-of-sequence and leaves the state (and all ghost history)
untouched, for any number of subsequent polls. -/
theorem claim6_closed_terminal {Req R E : Type} (o : Oracles E)
    (out : Req → Except E R) (m : ResponseStream Req R E)
    (h : m.inner = Inner.Closed) :
    pollNext o out m = (Poll.Ready none, m) ∧
    ∀ n, run o out n m = (List.replicate n none, m) :=
  ⟨pollNext_closed o out m h, run_closed o out m h⟩

/-- C6 witness: a concrete `Closed` stream yields only end-of-sequence. -/
theorem claim6_witness :
    pollNext errOracles okOutcome mClosed = (Poll.Ready none, mClosed) ∧
    (run errOracles okOutcome 3 mClosed).1 = [none, none, none] := by
  have h := claim6_closed_terminal errOracles okOutcome mClosed rfl
  refine ⟨h.1, ?_⟩
  rw [h.2 3]
  rfl

/-- C8: the queue-backed constructor without an explicit capacity creates
the bounded queue with capacity exactly 32 and is the same function as
`new_with_buffer` applied at buffer 32. -/
theorem claim8_default_capacity (Svc MV Req R E : Type) (service : Svc) (visitor : MV) :
    (ServiceLayer.new service visitor :
        ServiceLayer MV (Channel Req) × (Svc × ResponseStream Req R E)) =
      ServiceLayer.new_with_buffer service visitor 32 ∧
    (ServiceLayer.new service visitor :
        ServiceLayer MV (Channel Req) × (Svc × ResponseStream Req R E)).1.sink.capacity = 32 ∧
    ServiceLayer.DEFAULT_BUFFER = 32 :=
  ⟨rfl, rfl, rfl⟩

/-- C1: for every request sequence, every number of consumer polls, and
every interleaving of source readiness, worker readiness and operation
completion (the readiness check never failing), the non-end-of-sequence
results yielded by `poll_next` are exactly the worker's outcomes of the
accepted requests, in acceptance order: the i-th yielded result is the
outcome of the i-th accepted request. -/
theorem claim1_order_preservation {Req R E : Type} (o : Oracles E)
    (out : Req → Except E R) (items : List Req) (n : Nat)
    (hE : ∀ k e, o.ready k ≠ Poll.Ready (Except.error e)) :
    (run o out n (ResponseStream.new items)).1.reduceOption =
      ((run o out n (ResponseStream.new items)).2.accepted.map out).take
        (run o out n (ResponseStream.new items)).1.reduceOption.length := by
  have hg := run_ghost o out n (ResponseStream.new items)
  have h0 : OrderInv out (ResponseStream.new items) := by
    simp [OrderInv, ResponseStream.new]
  have hO := hg.2.2.2 hE h0
  have houts := hg.2.1
  rw [show (ResponseStream.new items : ResponseStream Req R E).outputs = [] from rfl,
    List.nil_append] at houts
  rw [← houts]
  cases hmi : (run o out n (ResponseStream.new items)).2.inner with
  | WaitingStream =>
    simp only [OrderInv, hmi] at hO
    rw [hO]
    exact (List.take_length _).symm
  | Closed =>
    simp only [OrderInv, hmi] at hO
    rw [hO]
    exact (List.take_length _).symm
  | WaitingService r =>
    simp only [OrderInv, hmi] at hO
    obtain ⟨pre, hacc, hout⟩ := hO
    rw [hout, hacc, List.map_append]
    exact (List.take_left _ _).symm
  | Existing r =>
    simp only [OrderInv, hmi] at hO
    obtain ⟨pre, hacc, hout⟩ := hO
    rw [hout, hacc, List.map_append]
    exact (List.take_left _ _).symm

/-- C1 witness: a schedule with delays on source readiness and operation
completion but a never-failing readiness check; the yielded results over
six polls are a correctly ordered prefix of the accepted requests'
outcomes. -/
theorem claim1_witness :
    (∀ k e, delayedOracles.ready k ≠ Poll.Ready (Except.error e)) ∧
    (run delayedOracles okOutcome 6 (ResponseStream.new [1, 2])).1.reduceOption =
      ((run delayedOracles okOutcome 6 (ResponseStream.new [1, 2])).2.accepted.map okOutcome).take
        (run delayedOracles okOutcome 6 (ResponseStream.new [1, 2])).1.reduceOption.length :=
  ⟨fun k e h => by simp [delayedOracles] at h,
   claim1_order_preservation delayedOracles okOutcome [1, 2] 6
     (fun k e h => by simp [delayedOracles] at h)⟩

/-- C2: at most one request is in flight in every reachable state: the
number of unresolved `Service::call`s is `inflight` of the state (hence at
most one), and `Service::call` is only ever invoked from a state in which
every previously started call has already resolved. -/
theorem claim2_at_most_one_in_flight {Req R E : Type} (o : Oracles E)
    (out : Req → Except E R) (items : List Req) (n : Nat) :
    (run o out n (ResponseStream.new items)).2.callsStarted =
      (run o out n (ResponseStream.new items)).2.callsFinished +
        inflight (run o out n (ResponseStream.new items)).2.inner ∧
    inflight (run o out n (ResponseStream.new items)).2.inner ≤ 1 ∧
    ((pollNext o out (run o out n (ResponseStream.new items)).2).2.callsStarted ≠
        (run o out n (ResponseStream.new items)).2.callsStarted →
      (run o out n (ResponseStream.new items)).2.callsStarted =
        (run o out n (ResponseStream.new items)).2.callsFinished) := by
  have hc := (run_ghost o out n (ResponseStream.new items)).2.2.1
    (by simp [CallInv, inflight, ResponseStream.new])
  unfold CallInv at hc
  refine ⟨hc, ?_, ?_⟩
  · cases (run o out n (ResponseStream.new items)).2.inner <;> simp [inflight]
  · intro h
    have h0 := step_calls o out _ h
    rw [h0] at hc
    simpa using hc

/-- C2 witness: after the very first poll performs a call, the
pre-call state had no unresolved call. -/
theorem claim2_witness :
    (ResponseStream.new [1] : ResponseStream Nat Nat String).callsStarted =
      (ResponseStream.new [1] : ResponseStream Nat Nat String).callsFinished := by
  have h := claim2_at_most_one_in_flight (immediate (E := String)) okOutcome [1] 0
  exact h.2.2 (by
    simp only [run]
    rw [pollNext_immediate_cycle okOutcome (ResponseStream.new [1]) 1 [] rfl rfl]
    simp [ResponseStream.new])

/-- C4: if the in-flight call for request `r` resolves to a failure, that
failure is yielded as the result at `r`'s position and the state returns
to `WaitingStream`; the next item `r2` is still pulled from the source and
submitted to the worker, whose outcome for `r2` is yielded by the next
poll — one failed call does not close the pipeline. -/
theorem claim4_nonterminal_call_failure {Req R E : Type} (o : Oracles E)
    (out : Req → Except E R) (m : ResponseStream Req R E) (r r2 : Req)
    (rest : List Req) (e : E)
    (h : m.inner = Inner.Existing r) (hf : o.fut m.futCount = true)
    (he : out r = Except.error e)
    (hi : m.items = r2 :: rest) (hrecv : o.recv m.recvCount = true)
    (hready : o.ready m.readyCount = Poll.Ready (Except.ok ()))
    (hf2 : o.fut (m.futCount + 1) = true) :
    (pollNext o out m).1 = Poll.Ready (some (Except.error e)) ∧
    (pollNext o out m).2.inner = Inner.WaitingStream ∧
    (pollNext o out (pollNext o out m).2).1 = Poll.Ready (some (out r2)) ∧
    (pollNext o out (pollNext o out m).2).2.accepted = m.accepted ++ [r2] ∧
    (pollNext o out (pollNext o out m).2).2.callsStarted = m.callsStarted + 1 := by
  have e1 : pollNext o out m = (Poll.Ready (some (Except.error e)), { m with futCount := m.futCount + 1, inner := Inner.WaitingStream, callsFinished := m.callsFinished + 1, outputs := m.outputs ++ [Except.error e] }) := by
    rw [pollNext_existing_ready o out m r h hf, he]
  have e2 := pollNext_stream_some o out { m with futCount := m.futCount + 1, inner := Inner.WaitingStream, callsFinished := m.callsFinished + 1, outputs := m.outputs ++ [Except.error e] } r2 rest rfl hrecv hi
  have e3 := pollNext_service_ok o out { m with futCount := m.futCount + 1, inner := Inner.WaitingService r2, callsFinished := m.callsFinished + 1, outputs := m.outputs ++ [Except.error e], recvCount := m.recvCount + 1, items := rest, accepted := m.accepted ++ [r2] } r2 () rfl hready
  have e4 := pollNext_existing_ready o out { m with futCount := m.futCount + 1, inner := Inner.Existing r2, callsFinished := m.callsFinished + 1, outputs := m.outputs ++ [Except.error e], recvCount := m.recvCount + 1, items := rest, accepted := m.accepted ++ [r2], readyCount := m.readyCount + 1, callsStarted := m.callsStarted + 1 } r2 rfl hf2
  rw [e1]
  refine ⟨rfl, rfl, ?_, ?_, ?_⟩
  · show (pollNext o out { m with futCount := m.futCount + 1, inner := Inner.WaitingStream, callsFinished := m.callsFinished + 1, outputs := m.outputs ++ [Except.error e] }).1 = Poll.Ready (some (out r2))
    rw [e2, e3, e4]
  · show (pollNext o out { m with futCount := m.futCount + 1, inner := Inner.WaitingStream, callsFinished := m.callsFinished + 1, outputs := m.outputs ++ [Except.error e] }).2.accepted = m.accepted ++ [r2]
    rw [e2, e3, e4]
  · show (pollNext o out { m with futCount := m.futCount + 1, inner := Inner.WaitingStream, callsFinished := m.callsFinished + 1, outputs := m.outputs ++ [Except.error e] }).2.callsStarted = m.callsStarted + 1
    rw [e2, e3, e4]

/-- C4 witness: request `1` fails, the stream returns to `WaitingStream`,
and queued item `2` is still accepted and processed on the next poll. -/
theorem claim4_witness :
    (pollNext (immediate (E := String)) failAtOne mExisting).1 =
      Poll.Ready (some (Except.error "fail")) ∧
    (pollNext (immediate (E := String)) failAtOne
        (pollNext (immediate (E := String)) failAtOne mExisting).2).2.accepted =
      mExisting.accepted ++ [2] ∧
    (pollNext (immediate (E := String)) failAtOne
        (pollNext (immediate (E := String)) failAtOne mExisting).2).1 =
      Poll.Ready (some (failAtOne 2)) := by
  have h := claim4_nonterminal_call_failure (immediate (E := String)) failAtOne
    mExisting 1 2 [] "fail" rfl rfl rfl rfl rfl rfl rfl
  exact ⟨h.1, h.2.2.2.1, h.2.2.1⟩

/-- C5: for every N ≥ 0, if the worker's readiness check always succeeds
(never errors, and answers ok from every point eventually) and the source
and the in-flight futures are fair (eventually ready from every point),
then a source of N items followed by exhaustion yields, within some
number of polls, exactly the N results in order followed by
end-of-sequence — and end-of-sequence again on every later poll — with the
state `Closed` from the exhaustion on.  N = 0 is the `items = []`
instance: the stream's first yield is end-of-sequence. -/
theorem claim5_clean_exhaustion {Req R E : Type} (o : Oracles E)
    (out : Req → Except E R) (items : List Req)
    (hE : ∀ k e, o.ready k ≠ Poll.Ready (Except.error e))
    (hreadyF : ∀ c, ∃ d, o.ready (c + d) = Poll.Ready (Except.ok ()))
    (hrecvF : ∀ c, ∃ d, o.recv (c + d) = true)
    (hfut : ∀ c, ∃ d, o.fut (c + d) = true) :
    ∃ M, ∀ k,
      (run o out (M + k) (ResponseStream.new items)).1 =
        items.map (fun r => some (out r)) ++ List.replicate (k + 1) none ∧
      (run o out (M + k) (ResponseStream.new items)).2.inner = Inner.Closed := by
  obtain ⟨M, h1, h2⟩ :=
    run_fair o out hE hreadyF hrecvF hfut items (ResponseStream.new items) rfl rfl
  refine ⟨M, fun k => ?_⟩
  have ha := run_append o out M k (ResponseStream.new items)
  have hc := run_closed o out (run o out M (ResponseStream.new items)).2 h2 k
  rw [ha, hc]
  constructor
  · show (run o out M (ResponseStream.new items)).1 ++ List.replicate k none =
      items.map (fun r => some (out r)) ++ List.replicate (k + 1) none
    rw [h1, List.append_assoc]
    simp [List.replicate_succ]
  · exact h2

/-- C5 witness: the immediate schedule is fair and never errors; on it the
two queued items yield their outcomes then end-of-sequence. -/
theorem claim5_witness :
    ∃ M, ∀ k,
      (run (immediate (E := String)) okOutcome (M + k) (ResponseStream.new [1, 2])).1 =
        [1, 2].map (fun r => some (okOutcome r)) ++ List.replicate (k + 1) none ∧
      (run (immediate (E := String)) okOutcome (M + k)
        (ResponseStream.new [1, 2])).2.inner = Inner.Closed :=
  claim5_clean_exhaustion (immediate (E := String)) okOutcome [1, 2]
    (fun k e h => by simp [immediate] at h)
    (fun c => ⟨0, rfl⟩) (fun c => ⟨0, rfl⟩) (fun c => ⟨0, rfl⟩)

/-- C9: the producer-side `on_event` is a total function of the channel
state (it never blocks and never fails): the offer is the non-blocking
`try_send`, and in both failure modes — consumer half released, or queue
at capacity — the built request is silently dropped and the channel the
consumer observes is unchanged; otherwise the request is enqueued. -/
theorem claim9_producer_drop (Ev Req : Type) (build : Ev → Req)
    (c : Channel Req) (event : Ev) :
    (ServiceLayer.on_event build c event = c ∨
      ServiceLayer.on_event build c event =
        { c with queue := c.queue ++ [build event] }) ∧
    (c.rxAlive = false → ServiceLayer.on_event build c event = c) ∧
    (c.rxAlive = true → c.capacity ≤ c.queue.length →
      ServiceLayer.on_event build c event = c) ∧
    (c.rxAlive = true → c.queue.length < c.capacity →
      ServiceLayer.on_event build c event =
        { c with queue := c.queue ++ [build event] }) ∧
    ((trySend c (build event)).2 ≠ Except.ok () →
      ServiceLayer.on_event build c event = c) := by
  cases hA : c.rxAlive
  · simp [ServiceLayer.on_event, sink_send, trySend, hA]
  · by_cases hC : c.capacity ≤ c.queue.length
    · simp [ServiceLayer.on_event, sink_send, trySend, hA, hC]
    · simp [ServiceLayer.on_event, sink_send, trySend, hA, hC, Nat.lt_of_not_le hC]

/-- C9 witness: a released consumer half and a full queue both make
`on_event` return with the channel unchanged. -/
theorem claim9_witness :
    ServiceLayer.on_event (fun n => n + 1) cClosed 5 = cClosed ∧
    ServiceLayer.on_event (fun n => n + 1) cFull 5 = cFull :=
  ⟨(claim9_producer_drop Nat Nat (fun n => n + 1) cClosed 5).2.1 rfl,
   (claim9_producer_drop Nat Nat (fun n => n + 1) cFull 5).2.2.1 rfl (by decide)⟩

/-- C7: `Closed` is only ever left behind at the end of a poll by the
source-exhaustion transition out of `WaitingStream` (the poll yields
end-of-sequence) or by a readiness failure while a request was pending in
`WaitingService` (the poll yields that error); no other transition ends a
poll in `Closed`. -/
theorem claim7_closed_provenance {Req R E : Type} (o : Oracles E)
    (out : Req → Except E R) (m : ResponseStream Req R E)
    (h1 : m.inner ≠ Inner.Closed)
    (h2 : (pollNext o out m).2.inner = Inner.Closed) :
    (m.inner = Inner.WaitingStream ∧ m.items = [] ∧ o.recv m.recvCount = true ∧
      (pollNext o out m).1 = Poll.Ready none) ∨
    (∃ e, o.ready m.readyCount = Poll.Ready (Except.error e) ∧
      (pollNext o out m).1 = Poll.Ready (some (Except.error e)) ∧
      ((∃ r, m.inner = Inner.WaitingService r) ∨ m.inner = Inner.WaitingStream)) := by
  cases hm : m.inner with
  | Closed => exact absurd hm h1
  | Existing r =>
    cases hf : o.fut m.futCount
    · rw [pollNext_existing_pending o out m r hm hf] at h2
      simp [hm] at h2
    · rw [pollNext_existing_ready o out m r hm hf] at h2
      simp at h2
  | WaitingService r =>
    cases hr : o.ready m.readyCount with
    | Pending =>
      rw [pollNext_service_pending o out m r hm hr] at h2
      simp [hm] at h2
    | Ready res =>
      cases res with
      | error e =>
        refine Or.inr ⟨e, rfl, ?_, Or.inl ⟨r, rfl⟩⟩
        rw [pollNext_service_err o out m r e hm hr]
      | ok u =>
        rw [pollNext_service_ok o out m r u hm hr] at h2
        cases hf : o.fut m.futCount
        · rw [pollNext_existing_pending o out { m with readyCount := m.readyCount + 1, inner := Inner.Existing r, callsStarted := m.callsStarted + 1 } r rfl hf] at h2
          simp at h2
        · rw [pollNext_existing_ready o out { m with readyCount := m.readyCount + 1, inner := Inner.Existing r, callsStarted := m.callsStarted + 1 } r rfl hf] at h2
          simp at h2
  | WaitingStream =>
    cases hrecv : o.recv m.recvCount
    · rw [pollNext_stream_pending o out m hm hrecv] at h2
      simp [hm] at h2
    · cases hi : m.items with
      | nil =>
        refine Or.inl ⟨rfl, rfl, rfl, ?_⟩
        rw [pollNext_stream_none o out m hm hrecv hi]
      | cons r rest =>
        rw [pollNext_stream_some o out m r rest hm hrecv hi] at h2
        cases hr : o.ready m.readyCount with
        | Pending =>
          rw [pollNext_service_pending o out { m with recvCount := m.recvCount + 1, items := rest, accepted := m.accepted ++ [r], inner := Inner.WaitingService r } r rfl hr] at h2
          simp at h2
        | Ready res =>
          cases res with
          | error e =>
            refine Or.inr ⟨e, rfl, ?_, Or.inr rfl⟩
            rw [pollNext_stream_some o out m r rest hm hrecv hi,
              pollNext_service_err o out { m with recvCount := m.recvCount + 1, items := rest, accepted := m.accepted ++ [r], inner := Inner.WaitingService r } r e rfl hr]
          | ok u =>
            rw [pollNext_service_ok o out { m with recvCount := m.recvCount + 1, items := rest, accepted := m.accepted ++ [r], inner := Inner.WaitingService r } r u rfl hr] at h2
            cases hf : o.fut m.futCount
            · rw [pollNext_existing_pending o out { m with recvCount := m.recvCount + 1, items := rest, accepted := m.accepted ++ [r], inner := Inner.Existing r, readyCount := m.readyCount + 1, callsStarted := m.callsStarted + 1 } r rfl hf] at h2
              simp at h2
            · rw [pollNext_existing_ready o out { m with recvCount := m.recvCount + 1, items := rest, accepted := m.accepted ++ [r], inner := Inner.Existing r, readyCount := m.readyCount + 1, callsStarted := m.callsStarted + 1 } r rfl hf] at h2
              simp at h2

/-- C7 witness: from a fresh stream over an exhausted source, the close is
the exhaustion close, which yields end-of-sequence. -/
theorem claim7_witness :
    (pollNext errOracles okOutcome emptyStream).1 = Poll.Ready none ∨
    errOracles.ready 0 = Poll.Ready (Except.error "boom") := by
  have h := claim7_closed_provenance errOracles okOutcome emptyStream
    (by simp [emptyStream, ResponseStream.new])
    (by rw [pollNext_stream_none errOracles okOutcome emptyStream rfl rfl rfl])
  rcases h with ⟨_, _, _, hy⟩ | ⟨e, he, _, _⟩
  · exact Or.inl hy
  · exact Or.inr rfl

/-- C10: over any schedule and any number of polls from the initial
`WaitingStream` state, the `unsafe { unreachable_unchecked() }` branch of
the `WaitingService` arm is never executed (the UB ghost flag stays
false): the value returned by `project_replace` is always the
`WaitingService` variant there. -/
theorem claim10_unreachable_branch {Req R E : Type} (o : Oracles E)
    (out : Req → Except E R) (items : List Req) (n : Nat) :
    (run o out n (ResponseStream.new items)).2.ub = false := by
  have h := (run_ghost o out n (ResponseStream.new items)).1
  simpa [ResponseStream.new] using h

end TracingService
